import Mathlib

/-!
Verification of the laser-chess board engine (`src/logic.rs`).

The Rust source is shallowly embedded: each Rust type and function below
mirrors the corresponding item in `logic.rs` (names are kept where Lean
allows).  Machine integers (`usize`) are modelled as `Nat`; the saturating
`checked_add`/`checked_sub` calls of the source are translated to their
exact `Option Nat` behaviour.  The board array `[[Option<Piece>; 8]; 8]`
is modelled as a function `Fin 8 → Fin 8 → Option Piece` indexed as
`cell y x`, matching the source's `cell[y][x]`.  An out-of-range array
index (a Rust panic) is modelled by `Option`: an access through `cellAt`
or `setCell` returns `none` exactly when the source would go out of
bounds.  The unboundedly recursive `cast_laser` and `bounce_laser` are
modelled with an explicit recursion-depth argument; `none` for exhausted
depth represents a non-terminating (or out-of-range) run of the source.
-/

namespace LaserChess

deriving instance DecidableEq for Except

/-- The four orthogonal laser headings (`bevy_math::CompassQuadrant`). -/
inductive CompassQuadrant where
  | north
  | east
  | south
  | west
deriving DecidableEq, Fintype

/-- The eight single-step move directions (`bevy_math::CompassOctant`). -/
inductive CompassOctant where
  | north
  | northEast
  | east
  | southEast
  | south
  | southWest
  | west
  | northWest
deriving DecidableEq, Fintype

/-- The four diagonal mirror facings (`Orientation` in `logic.rs`). -/
inductive Orientation where
  | NE
  | NW
  | SE
  | SW
deriving DecidableEq, Fintype

/-- Rotation handedness (`Chirality` in `logic.rs`). -/
inductive Chirality where
  | clockwise
  | counterClockwise
deriving DecidableEq, Fintype

/-- The two player identities (`Player` in `logic.rs`). -/
inductive Player where
  | player1
  | player2
deriving DecidableEq, Fintype

/-- Piece kinds (`PieceKind` in `logic.rs`). -/
inductive PieceKind where
  | king
  | block (stacked : Bool)
  | oneSide (o : Orientation)
  | twoSide (o : Orientation)
deriving DecidableEq, Fintype

/-- A piece: kind plus owning player (`Piece` in `logic.rs`). -/
structure Piece where
  kind : PieceKind
  allegiance : Player
deriving DecidableEq, Fintype

/-- A grid coordinate (`bevy_math::USizeVec2`); `usize` fields become `Nat`. -/
structure Pos where
  x : Nat
  y : Nat
deriving DecidableEq

/-- The 8×8 board (`Board` in `logic.rs`), indexed as `cell y x` to match
the source's `self.cell[y][x]`. -/
def Board := Fin 8 → Fin 8 → Option Piece

/-- A laser in flight: position plus heading (`Laser` in `logic.rs`). -/
structure Laser where
  position : Pos
  direction : CompassQuadrant
deriving DecidableEq

/-- The five move-rejection reasons (`InvalidMove` in `logic.rs`). -/
inductive InvalidMove where
  | outOfBounds
  | noPieceAtFrom
  | notYourPiece
  | destinationOccupied
  | cannotRotate
deriving DecidableEq

/-- Move payload (`MoveKind` in `logic.rs`). -/
inductive MoveKind where
  | move (d : CompassOctant)
  | rotate (c : Chirality)
deriving DecidableEq

/-- A move request (`Move` in `logic.rs`); the source field `from` is a
Lean keyword, so it is called `from'` here. -/
structure Move where
  from' : Pos
  kind : MoveKind
deriving DecidableEq

/-- `Orientation::rotate` from `logic.rs`, case for case. -/
def Orientation.rotate : Orientation → Chirality → Orientation
  | .NE, .clockwise => .SE
  | .NE, .counterClockwise => .NW
  | .NW, .clockwise => .NE
  | .NW, .counterClockwise => .SW
  | .SE, .clockwise => .SW
  | .SE, .counterClockwise => .NE
  | .SW, .clockwise => .NW
  | .SW, .counterClockwise => .SE

/-- `PieceKind::reflect` from `logic.rs`, case for case: `Ok` carries the
outgoing heading of a reflection, `Err` carries the struck piece's
replacement (`none` = removed). -/
def PieceKind.reflect : PieceKind → CompassQuadrant →
    Except (Option PieceKind) CompassQuadrant
  | .oneSide .NE, .south => .ok .east
  | .oneSide .NE, .west => .ok .north
  | .oneSide .NW, .south => .ok .west
  | .oneSide .NW, .east => .ok .north
  | .oneSide .SE, .north => .ok .east
  | .oneSide .SE, .west => .ok .south
  | .oneSide .SW, .north => .ok .west
  | .oneSide .SW, .east => .ok .south
  | .oneSide _, _ => .error none
  | .twoSide .NE, .south | .twoSide .SW, .south => .ok .east
  | .twoSide .NE, .west | .twoSide .SW, .west => .ok .north
  | .twoSide .NE, .north | .twoSide .SW, .north => .ok .west
  | .twoSide .NE, .east | .twoSide .SW, .east => .ok .south
  | .twoSide .NW, .south | .twoSide .SE, .south => .ok .west
  | .twoSide .NW, .east | .twoSide .SE, .east => .ok .north
  | .twoSide .NW, .north | .twoSide .SE, .north => .ok .east
  | .twoSide .NW, .west | .twoSide .SE, .west => .ok .south
  | .block true, _ => .error (some (.block false))
  | .block false, _ => .error none
  | .king, _ => .error none

/-- `Piece::reflect` from `logic.rs`: wraps the kind-level outcome,
re-attaching the allegiance to a downgraded piece. -/
def Piece.reflect (p : Piece) (direction : CompassQuadrant) :
    Except (Option Piece) CompassQuadrant :=
  match p.kind.reflect direction with
  | .ok newDirection => .ok newDirection
  | .error destroyedKind =>
      .error (destroyedKind.map fun kind => Piece.mk kind p.allegiance)

/-- `add_compass_quadrant` from `logic.rs`: one step in an orthogonal
direction, `none` when the step leaves `[0,8)` on the checked axis
(`checked_sub` underflow for south/west, the `< 8` test for north/east). -/
def addCompassQuadrant (pos : Pos) (dir : CompassQuadrant) : Option Pos :=
  match dir with
  | .north => if pos.y + 1 < 8 then some ⟨pos.x, pos.y + 1⟩ else none
  | .east => if pos.x + 1 < 8 then some ⟨pos.x + 1, pos.y⟩ else none
  | .south => match pos.y with
      | 0 => none
      | y + 1 => some ⟨pos.x, y⟩
  | .west => match pos.x with
      | 0 => none
      | x + 1 => some ⟨x, pos.y⟩

/-- `add_compass_octant` from `logic.rs`: one step in one of the eight
directions with the same per-axis bound checks as the source. -/
def addCompassOctant (pos : Pos) (dir : CompassOctant) : Option Pos :=
  match dir with
  | .north => if pos.y + 1 < 8 then some ⟨pos.x, pos.y + 1⟩ else none
  | .northEast =>
      if pos.x + 1 < 8 ∧ pos.y + 1 < 8 then some ⟨pos.x + 1, pos.y + 1⟩ else none
  | .east => if pos.x + 1 < 8 then some ⟨pos.x + 1, pos.y⟩ else none
  | .southEast => match pos.y with
      | 0 => none
      | y + 1 => if pos.x + 1 < 8 then some ⟨pos.x + 1, y⟩ else none
  | .south => match pos.y with
      | 0 => none
      | y + 1 => some ⟨pos.x, y⟩
  | .southWest => match pos.x, pos.y with
      | x + 1, y + 1 => some ⟨x, y⟩
      | _, _ => none
  | .west => match pos.x with
      | 0 => none
      | x + 1 => some ⟨x, pos.y⟩
  | .northWest => match pos.x with
      | 0 => none
      | x + 1 => if pos.y + 1 < 8 then some ⟨x, pos.y + 1⟩ else none

/-- `Laser::advance` from `logic.rs`. -/
def Laser.advance (l : Laser) : Option Laser :=
  (addCompassQuadrant l.position l.direction).map fun p =>
    Laser.mk p l.direction

/-- A coordinate pair lies on the 8×8 grid. -/
def InGridP (p : Pos) : Prop := p.y < 8 ∧ p.x < 8

instance (p : Pos) : Decidable (InGridP p) := by
  unfold InGridP; infer_instance

/-- Reading `self.cell[p.y][p.x]`: `none` models the out-of-range panic,
`some c` the cell content. -/
def cellAt (b : Board) (p : Pos) : Option (Option Piece) :=
  if h : p.y < 8 ∧ p.x < 8 then some (b ⟨p.y, h.1⟩ ⟨p.x, h.2⟩) else none

/-- Writing `self.cell[p.y][p.x] = v`: `none` models the out-of-range
panic, `some b'` the updated board. -/
def setCell (b : Board) (p : Pos) (v : Option Piece) : Option Board :=
  if h : p.y < 8 ∧ p.x < 8 then
    some (fun y x => if y = ⟨p.y, h.1⟩ ∧ x = ⟨p.x, h.2⟩ then v else b y x)
  else none

/-- `Board::cast_laser` from `logic.rs`, with an explicit recursion-depth
bound `n`.  The source recursion reads the current cell first and, while
the cell is empty, advances one step; starting from an on-grid position it
therefore visits at most 8 cells, so depth 8 (used by `castLaser` below)
is never exhausted on-grid — `castLaserAux_total` proves this.  Result
`none` models the out-of-range panic of `cell[y][x]` (only reachable from
an off-grid start); `some none` is the wall, `some (some (c, p))` the
first piece hit. -/
def castLaserAux (b : Board) : Nat → Laser → Option (Option (Pos × Piece))
  | 0, _ => none
  | n + 1, l =>
    match cellAt b l.position with
    | none => none
    | some (some piece) => some (some (l.position, piece))
    | some none =>
      match l.advance with
      | none => some none
      | some l' => castLaserAux b n l'

/-- `Board::cast_laser` at its exact recursion depth (at most 8 on-grid). -/
def castLaser (b : Board) (l : Laser) : Option (Option (Pos × Piece)) :=
  castLaserAux b 8 l

/-- `Board::bounce_laser` from `logic.rs`, with an explicit recursion-depth
bound `n` counting reflections.  `none` models a run of the source that
does not return within `n` reflections (or panics); `some none` is the
laser leaving the grid, `some (some (c, st))` a terminal hit at `c`
replacing the struck piece by `st`. -/
def bounceLaser (b : Board) : Nat → Laser → Option (Option (Pos × Option Piece))
  | 0, _ => none
  | n + 1, l =>
    match castLaser b l with
    | none => none
    | some none => some none
    | some (some (hitCoord, hitPiece)) =>
      match hitPiece.reflect l.direction with
      | .ok newDirection =>
        match Laser.advance ⟨hitCoord, newDirection⟩ with
        | none => some none
        | some l' => bounceLaser b n l'
      | .error newPieceState => some (some (hitCoord, newPieceState))

/-- The fixed laser each player fires, from `Board::try_move` in
`logic.rs`: Player1 at `(7,0)` heading north, Player2 at `(0,7)` heading
south. -/
def playerLaser : Player → Laser
  | .player1 => ⟨⟨7, 0⟩, .north⟩
  | .player2 => ⟨⟨0, 7⟩, .south⟩

/-- `Board::try_move_piece` from `logic.rs`.  The source takes `self` by
value and returns `Result<Self, InvalidMove>`; here the outer `Option`
models the panic of an out-of-range index (the source indexes
`cell[from.y][from.x]` without a bounds check).  Reads and writes happen
in the source's order. -/
def tryMovePiece (b : Board) (playerMove : Move) (player : Player) :
    Option (Except InvalidMove Board) :=
  match cellAt b playerMove.from' with
  | none => none
  | some none => some (.error .noPieceAtFrom)
  | some (some piece) =>
    if piece.allegiance = player then
      match playerMove.kind with
      | .move direction =>
        match addCompassOctant playerMove.from' direction with
        | none => some (.error .outOfBounds)
        | some to' =>
          match cellAt b to' with
          | none => none
          | some (some _) => some (.error .destinationOccupied)
          | some none =>
            match cellAt b playerMove.from' with
            | none => none
            | some v =>
              match setCell b to' v with
              | none => none
              | some b1 =>
                match setCell b1 playerMove.from' none with
                | none => none
                | some b2 => some (.ok b2)
      | .rotate chirality =>
        match piece.kind with
        | .king => some (.error .cannotRotate)
        | .block _ => some (.error .cannotRotate)
        | .oneSide o =>
          (setCell b playerMove.from'
            (some ⟨.oneSide (o.rotate chirality), piece.allegiance⟩)).map .ok
        | .twoSide o =>
          (setCell b playerMove.from'
            (some ⟨.twoSide (o.rotate chirality), piece.allegiance⟩)).map .ok
    else some (.error .notYourPiece)

/-- `Board::try_move` from `logic.rs`.  The source mutates `&mut self` and
returns `Result<(), InvalidMove>`; here the final state of `self` is
returned alongside the optional rejection, so the pair `(b', some e)`
states that the call failed with `e` leaving the board as `b'`.  The
laser walk is run with depth 256, which `bounceLaser_corner_total` below
proves sufficient for the corner lasers fired here (the source recursion
returns the same value). -/
def tryMove (b : Board) (playerMove : Move) (player : Player) :
    Option (Board × Option InvalidMove) :=
  match tryMovePiece b playerMove player with
  | none => none
  | some (.error e) => some (b, some e)
  | some (.ok b1) =>
    match bounceLaser b1 256 (playerLaser player) with
    | none => none
    | some none => some (b1, none)
    | some (some (hitCoord, newPieceState)) =>
      match setCell b1 hitCoord newPieceState with
      | none => none
      | some b2 => some (b2, none)

/-- Whether a cell holds a King, as matched by `Board::game_over`. -/
def isKingCell : Option Piece → Bool
  | some ⟨.king, _⟩ => true
  | _ => false

/-- The 64 cells of the board in the row-major order of
`self.cell.iter().flat_map(|row| row)` in `Board::game_over`. -/
def boardCells (b : Board) : List (Option Piece) :=
  (List.finRange 8).flatMap fun y => (List.finRange 8).map fun x => b y x

/-- `Board::game_over` from `logic.rs`: fewer than two kings remain. -/
def gameOver (b : Board) : Bool :=
  ((boardCells b).countP isKingCell) < 2

/-- The total number of cells of `b` containing a King piece (stated
independently of the iteration order used by `gameOver`). -/
def kingsCount (b : Board) : Nat :=
  (Finset.univ.filter fun q : Fin 8 × Fin 8 => isKingCell (b q.1 q.2)).card

/-- The board `handle_game_session` (`start_game` in `src/bin/server.rs`)
constructs at game start: empty except `cell[0][4] = king(Player2)` and
`cell[7][3] = king(Player1)`. -/
def initialBoard : Board := fun y x =>
  if y = (0 : Fin 8) ∧ x = (4 : Fin 8) then some ⟨.king, .player2⟩
  else if y = (7 : Fin 8) ∧ x = (3 : Fin 8) then some ⟨.king, .player1⟩
  else none

instance : DecidableEq Board := by
  unfold Board; infer_instance

/-- The reflection table exactly as the specification's §4.3 states it,
written from the spec's words for comparison with `PieceKind.reflect`:
in particular a `OneSide` mirror struck on a heading its row does not
list is declared "absorbed (piece untouched)", i.e. the struck cell keeps
its piece. -/
def specTableReflect : PieceKind → CompassQuadrant →
    Except (Option PieceKind) CompassQuadrant
  | .oneSide .NE, .south => .ok .east
  | .oneSide .NE, .west => .ok .north
  | .oneSide .NW, .south => .ok .west
  | .oneSide .NW, .east => .ok .north
  | .oneSide .SE, .north => .ok .east
  | .oneSide .SE, .west => .ok .south
  | .oneSide .SW, .north => .ok .west
  | .oneSide .SW, .east => .ok .south
  | .oneSide o, _ => .error (some (.oneSide o))
  | .twoSide .NE, .south | .twoSide .SW, .south => .ok .east
  | .twoSide .NE, .west | .twoSide .SW, .west => .ok .north
  | .twoSide .NE, .north | .twoSide .SW, .north => .ok .west
  | .twoSide .NE, .east | .twoSide .SW, .east => .ok .south
  | .twoSide .NW, .south | .twoSide .SE, .south => .ok .west
  | .twoSide .NW, .east | .twoSide .SE, .east => .ok .north
  | .twoSide .NW, .north | .twoSide .SE, .north => .ok .east
  | .twoSide .NW, .west | .twoSide .SE, .west => .ok .south
  | .block true, _ => .error (some (.block false))
  | .block false, _ => .error none
  | .king, _ => .error none

/-- The §4.3 reflection table amended at its one point of disagreement
with the code: a `OneSide` mirror struck on a non-listed heading is
removed (`error none`), exactly like a King or an un-stacked Block,
rather than left in place. -/
def amendedTableReflect : PieceKind → CompassQuadrant →
    Except (Option PieceKind) CompassQuadrant
  | .oneSide .NE, .south => .ok .east
  | .oneSide .NE, .west => .ok .north
  | .oneSide .NW, .south => .ok .west
  | .oneSide .NW, .east => .ok .north
  | .oneSide .SE, .north => .ok .east
  | .oneSide .SE, .west => .ok .south
  | .oneSide .SW, .north => .ok .west
  | .oneSide .SW, .east => .ok .south
  | .oneSide _, _ => .error none
  | .twoSide .NE, .south | .twoSide .SW, .south => .ok .east
  | .twoSide .NE, .west | .twoSide .SW, .west => .ok .north
  | .twoSide .NE, .north | .twoSide .SW, .north => .ok .west
  | .twoSide .NE, .east | .twoSide .SW, .east => .ok .south
  | .twoSide .NW, .south | .twoSide .SE, .south => .ok .west
  | .twoSide .NW, .east | .twoSide .SE, .east => .ok .north
  | .twoSide .NW, .north | .twoSide .SE, .north => .ok .east
  | .twoSide .NW, .west | .twoSide .SE, .west => .ok .south
  | .block true, _ => .error (some (.block false))
  | .block false, _ => .error none
  | .king, _ => .error none

/-- The effect of the `Rotate` branch of `try_move_piece` on a piece
(mirrors rotate their orientation, other kinds are returned unchanged —
those kinds can in fact never reach the write). -/
def rotatePiece (pc : Piece) (c : Chirality) : Piece :=
  match pc.kind with
  | .oneSide o => ⟨.oneSide (o.rotate c), pc.allegiance⟩
  | .twoSide o => ⟨.twoSide (o.rotate c), pc.allegiance⟩
  | k => ⟨k, pc.allegiance⟩

/-- The board of the spec's §8 scenario: Player1's king at `(3,7)`,
Player2's king at `(4,0)`, and a `OneSide(NW)` of Player2 at `(7,3)`
(coordinates `(x,y)`, stored at `cell[y][x]`). -/
def scenarioBoard : Board := fun y x =>
  if y = (0 : Fin 8) ∧ x = (4 : Fin 8) then some ⟨.king, .player2⟩
  else if y = (7 : Fin 8) ∧ x = (3 : Fin 8) then some ⟨.king, .player1⟩
  else if y = (3 : Fin 8) ∧ x = (7 : Fin 8) then some ⟨.oneSide .NW, .player2⟩
  else none

/-- Four `TwoSide` mirrors forming a closed reflection loop: at `(x,y)` =
`(5,5)` and `(2,2)` orientation NE, at `(2,5)` and `(5,2)` orientation NW.
A laser inside the rectangle cycles `(5,3)N → (4,5)W → (2,4)S → (3,2)E →
(5,3)N → …` forever. -/
def loopBoard : Board := fun y x =>
  if y = (5 : Fin 8) ∧ x = (5 : Fin 8) then some ⟨.twoSide .NE, .player1⟩
  else if y = (5 : Fin 8) ∧ x = (2 : Fin 8) then some ⟨.twoSide .NW, .player1⟩
  else if y = (2 : Fin 8) ∧ x = (2 : Fin 8) then some ⟨.twoSide .NE, .player1⟩
  else if y = (2 : Fin 8) ∧ x = (5 : Fin 8) then some ⟨.twoSide .NW, .player1⟩
  else none

/-- The four laser states of `loopBoard`'s reflection cycle. -/
def loopLaser0 : Laser := ⟨⟨5, 3⟩, .north⟩

/-- Second state of the `loopBoard` cycle. -/
def loopLaser1 : Laser := ⟨⟨4, 5⟩, .west⟩

/-- Third state of the `loopBoard` cycle. -/
def loopLaser2 : Laser := ⟨⟨2, 4⟩, .south⟩

/-- Fourth state of the `loopBoard` cycle. -/
def loopLaser3 : Laser := ⟨⟨3, 2⟩, .east⟩

/-- A board whose only piece sits on Player1's firing corner `(7,0)`
(and is owned by Player2). -/
def cornerBoard : Board := fun y x =>
  if y = (0 : Fin 8) ∧ x = (7 : Fin 8) then some ⟨.block true, .player2⟩
  else none

/-- The source's `bounce_laser` recursion reaches a result at some
recursion depth. -/
def BounceTerminates (b : Board) (l : Laser) : Prop :=
  ∃ n r, bounceLaser b n l = some r

/-- Iterated `addCompassQuadrant`: the cell `n` steps from `p` in
direction `d`, `none` if the walk leaves the grid. -/
def stepN (d : CompassQuadrant) : Pos → Nat → Option Pos
  | p, 0 => some p
  | p, n + 1 =>
    match addCompassQuadrant p d with
    | none => none
    | some q => stepN d q n

/-- The unique candidate predecessor cell of `q` for a step in direction
`d` (inverts `addCompassQuadrant` where that returns `some`). -/
def backStep (q : Pos) : CompassQuadrant → Pos
  | .north => ⟨q.x, q.y - 1⟩
  | .east => ⟨q.x - 1, q.y⟩
  | .south => ⟨q.x, q.y + 1⟩
  | .west => ⟨q.x + 1, q.y⟩

/-- Number of steps from `p` to the wall in direction `d`; bounds the
recursion depth of `cast_laser`. -/
def remSteps (p : Pos) : CompassQuadrant → Nat
  | .north => 7 - p.y
  | .east => 7 - p.x
  | .south => p.y
  | .west => p.x

/-- One reflection step of `bounce_laser`: the laser state the recursive
call receives, `none` if instead the walk ends (wall, terminal hit, or an
off-grid cast). -/
def nextLaser (b : Board) (l : Laser) : Option Laser :=
  match castLaser b l with
  | some (some (hitCoord, hitPiece)) =>
    match hitPiece.reflect l.direction with
    | .ok newDirection => Laser.advance ⟨hitCoord, newDirection⟩
    | .error _ => none
  | _ => none

/-- A laser state produced by a reflection: it was emitted by `advance`
out of an occupied cell. -/
def ReflGen (b : Board) (l : Laser) : Prop :=
  ∃ c pc, cellAt b c = some (some pc) ∧
    addCompassQuadrant c l.direction = some l.position

/-- No on-grid cell can step into this laser state: the cell behind the
laser (against its heading) lies off the grid.  Both fixed firing corners
satisfy this. -/
def NoPredecessor (l : Laser) : Prop :=
  ∀ u : Pos, InGridP u → addCompassQuadrant u l.direction ≠ some l.position

/-- The sequence of laser states of a `bounce_laser` run: step `k + 1` is
the reflection successor of step `k` (stalling once the walk ends). -/
def trajAux (b : Board) (l : Laser) : Nat → Laser
  | 0 => l
  | n + 1 =>
    match nextLaser b (trajAux b l n) with
    | some l' => l'
    | none => trajAux b l n

/-- A numbering of the four headings, used to count laser states. -/
def dirIdx : CompassQuadrant → Fin 4
  | .north => 0
  | .east => 1
  | .south => 2
  | .west => 3

/-- A board whose only piece is a `OneSide(NE)` mirror of Player1 at
`(0,0)`, used to exercise four successive rotations. -/
def mirrorBoard : Board := fun y x =>
  if y = (0 : Fin 8) ∧ x = (0 : Fin 8) then some ⟨.oneSide .NE, .player1⟩
  else none

theorem cellAt_inGrid {b : Board} {p : Pos} {v : Option Piece}
    (h : cellAt b p = some v) : InGridP p := by
  unfold cellAt at h
  split at h
  · rename_i hg
    exact hg
  · exact Option.noConfusion h

theorem cellAt_of_not_inGrid {b : Board} {p : Pos} (h : ¬ InGridP p) :
    cellAt b p = none := by
  unfold cellAt
  split
  · rename_i hg
    exact absurd hg h
  · rfl

theorem cellAt_isSome_of_inGrid (b : Board) {p : Pos} (h : InGridP p) :
    (cellAt b p).isSome = true := by
  unfold cellAt
  split
  · rfl
  · rename_i hg
    exact absurd h hg

theorem setCell_isSome_of_inGrid (b : Board) {p : Pos} (v : Option Piece)
    (h : InGridP p) : (setCell b p v).isSome = true := by
  unfold setCell
  split
  · rfl
  · rename_i hg
    exact absurd h hg

theorem setCell_cellAt_same {b b' : Board} {p : Pos} {v : Option Piece}
    (h : setCell b p v = some b') : cellAt b' p = some v := by
  unfold setCell at h
  split at h
  · rename_i hp
    cases h
    unfold cellAt
    split
    · simp
    · rename_i hg
      exact absurd hp hg
  · exact Option.noConfusion h

theorem setCell_cellAt_other {b b' : Board} {p q : Pos} {v : Option Piece}
    (h : setCell b p v = some b') (hq : q.x ≠ p.x ∨ q.y ≠ p.y) :
    cellAt b' q = cellAt b q := by
  unfold setCell at h
  split at h
  · rename_i hp
    cases h
    unfold cellAt
    by_cases hg : q.y < 8 ∧ q.x < 8
    · rw [dif_pos hg, dif_pos hg]
      have hcond : ¬((⟨q.y, hg.1⟩ : Fin 8) = ⟨p.y, hp.1⟩ ∧
          (⟨q.x, hg.2⟩ : Fin 8) = ⟨p.x, hp.2⟩) := by
        rintro ⟨h1, h2⟩
        rcases hq with hq | hq
        · exact hq (by simpa using h2)
        · exact hq (by simpa using h1)
      simp only [if_neg hcond]
    · rw [dif_neg hg, dif_neg hg]
  · exact Option.noConfusion h

theorem addCompassQuadrant_inGrid {p : Pos} {d : CompassQuadrant} {q : Pos}
    (hp : InGridP p) (h : addCompassQuadrant p d = some q) : InGridP q := by
  obtain ⟨px, py⟩ := p
  cases d
  case north =>
    simp only [addCompassQuadrant] at h
    split at h
    · cases h
      exact ⟨‹py + 1 < 8›, hp.2⟩
    · exact Option.noConfusion h
  case east =>
    simp only [addCompassQuadrant] at h
    split at h
    · cases h
      exact ⟨hp.1, ‹px + 1 < 8›⟩
    · exact Option.noConfusion h
  case south =>
    cases py with
    | zero => exact Option.noConfusion h
    | succ k =>
      cases h
      exact ⟨Nat.lt_of_succ_lt hp.1, hp.2⟩
  case west =>
    cases px with
    | zero => exact Option.noConfusion h
    | succ k =>
      cases h
      exact ⟨hp.1, Nat.lt_of_succ_lt hp.2⟩

theorem addCompassOctant_inGrid {p : Pos} {d : CompassOctant} {q : Pos}
    (hp : InGridP p) (h : addCompassOctant p d = some q) : InGridP q := by
  obtain ⟨px, py⟩ := p
  cases d
  case north =>
    simp only [addCompassOctant] at h
    split at h
    · cases h
      exact ⟨‹py + 1 < 8›, hp.2⟩
    · exact Option.noConfusion h
  case northEast =>
    simp only [addCompassOctant] at h
    split at h
    · cases h
      rename_i hc
      exact ⟨hc.2, hc.1⟩
    · exact Option.noConfusion h
  case east =>
    simp only [addCompassOctant] at h
    split at h
    · cases h
      exact ⟨hp.1, ‹px + 1 < 8›⟩
    · exact Option.noConfusion h
  case southEast =>
    cases py with
    | zero => exact Option.noConfusion h
    | succ k =>
      simp only [addCompassOctant] at h
      split at h
      · cases h
        exact ⟨Nat.lt_of_succ_lt hp.1, ‹px + 1 < 8›⟩
      · exact Option.noConfusion h
  case south =>
    cases py with
    | zero => exact Option.noConfusion h
    | succ k =>
      cases h
      exact ⟨Nat.lt_of_succ_lt hp.1, hp.2⟩
  case southWest =>
    cases px with
    | zero => exact Option.noConfusion h
    | succ j =>
      cases py with
      | zero => exact Option.noConfusion h
      | succ k =>
        cases h
        exact ⟨Nat.lt_of_succ_lt hp.1, Nat.lt_of_succ_lt hp.2⟩
  case west =>
    cases px with
    | zero => exact Option.noConfusion h
    | succ j =>
      cases h
      exact ⟨hp.1, Nat.lt_of_succ_lt hp.2⟩
  case northWest =>
    cases px with
    | zero => exact Option.noConfusion h
    | succ j =>
      simp only [addCompassOctant] at h
      split at h
      · cases h
        exact ⟨‹py + 1 < 8›, Nat.lt_of_succ_lt hp.2⟩
      · exact Option.noConfusion h

theorem addCompassQuadrant_backStep {p : Pos} {d : CompassQuadrant} {q : Pos}
    (h : addCompassQuadrant p d = some q) : p = backStep q d := by
  obtain ⟨px, py⟩ := p
  cases d
  case north =>
    simp only [addCompassQuadrant] at h
    split at h
    · cases h
      simp [backStep]
    · exact Option.noConfusion h
  case east =>
    simp only [addCompassQuadrant] at h
    split at h
    · cases h
      simp [backStep]
    · exact Option.noConfusion h
  case south =>
    cases py with
    | zero => exact Option.noConfusion h
    | succ k =>
      cases h
      simp [backStep]
  case west =>
    cases px with
    | zero => exact Option.noConfusion h
    | succ k =>
      cases h
      simp [backStep]

theorem addCompassQuadrant_inj {p p' : Pos} {d : CompassQuadrant} {q : Pos}
    (h : addCompassQuadrant p d = some q) (h' : addCompassQuadrant p' d = some q) :
    p = p' :=
  (addCompassQuadrant_backStep h).trans (addCompassQuadrant_backStep h').symm

theorem rotatePiece_four (pc : Piece) (c : Chirality) :
    rotatePiece (rotatePiece (rotatePiece (rotatePiece pc c) c) c) c = pc := by
  obtain ⟨k, a⟩ := pc
  cases c <;> cases k <;> first
    | rfl
    | (rename_i o; cases o <;> rfl)

theorem tryMovePiece_rotate_ok {b b' : Board} {q : Pos} {ch : Chirality}
    {p : Player} (h : tryMovePiece b ⟨q, .rotate ch⟩ p = some (.ok b')) :
    ∃ pc : Piece, cellAt b q = some (some pc) ∧
      cellAt b' q = some (some (rotatePiece pc ch)) := by
  unfold tryMovePiece at h
  rcases hc : cellAt b q with _ | v
  · rw [hc] at h
    exact Option.noConfusion h
  · rw [hc] at h
    rcases v with _ | pc
    · simp at h
    · simp only at h
      split at h
      · rcases hk : pc.kind with _ | st | o | o <;> rw [hk] at h <;> simp only at h
        · simp at h
        · simp at h
        · refine ⟨pc, rfl, ?_⟩
          rcases hs : setCell b q (some ⟨.oneSide (o.rotate ch), pc.allegiance⟩)
            with _ | b1 <;> rw [hs] at h <;> simp at h
          subst h
          rw [setCell_cellAt_same hs]
          obtain ⟨k, a⟩ := pc
          simp only at hk
          subst hk
          rfl
        · refine ⟨pc, rfl, ?_⟩
          rcases hs : setCell b q (some ⟨.twoSide (o.rotate ch), pc.allegiance⟩)
            with _ | b1 <;> rw [hs] at h <;> simp at h
          subst h
          rw [setCell_cellAt_same hs]
          obtain ⟨k, a⟩ := pc
          simp only at hk
          subst hk
          rfl
      · simp at h

/-- Claim C3 (amended): `PieceKind::reflect` agrees with the §4.3
reflection table at every (piece kind, incoming heading) pair once the
table's "absorbed (piece untouched)" outcome for a `OneSide` mirror
struck on a non-listed heading is amended to removal (`Err(None)`, the
same outcome as for a King or an un-stacked Block); all reflective pairs,
the stacked-Block downgrade, and King/un-stacked-Block removal are
exactly as the table states. -/
theorem claim3_reflect_table : ∀ (k : PieceKind) (d : CompassQuadrant),
    k.reflect d = amendedTableReflect k d := by
  decide

/-- Claim C3 (counterexample): at the concrete pair `(OneSide(NE), North)`
— a non-reflective mirror hit — the code returns `Err(None)` (piece
removed), not the "absorbed (piece untouched)" outcome the spec's table
states, so `reflect` does not equal the §4.3 table exactly. -/
theorem claim3_counterexample :
    PieceKind.reflect (.oneSide .NE) .north = .error none ∧
    (PieceKind.reflect (.oneSide .NE) .north
      = specTableReflect (.oneSide .NE) .north) = False :=
  ⟨rfl, eq_false (by decide)⟩

/-- Claim C7: rotating four times with a fixed chirality is the identity
on orientations, and four successful `Rotate` moves through
`try_move_piece` at the same cell with the same chirality leave that
cell's piece exactly as it started. -/
theorem claim7_rotation_closure :
    (∀ (o : Orientation) (c : Chirality),
      (((o.rotate c).rotate c).rotate c).rotate c = o) ∧
    (∀ (b0 b1 b2 b3 b4 : Board) (q : Pos) (ch : Chirality) (p : Player),
      tryMovePiece b0 ⟨q, .rotate ch⟩ p = some (.ok b1) →
      tryMovePiece b1 ⟨q, .rotate ch⟩ p = some (.ok b2) →
      tryMovePiece b2 ⟨q, .rotate ch⟩ p = some (.ok b3) →
      tryMovePiece b3 ⟨q, .rotate ch⟩ p = some (.ok b4) →
      cellAt b4 q = cellAt b0 q) := by
  refine ⟨by decide, ?_⟩
  intro b0 b1 b2 b3 b4 q ch p h1 h2 h3 h4
  obtain ⟨pc0, hc0, hc1⟩ := tryMovePiece_rotate_ok h1
  obtain ⟨pc1, hc1', hc2⟩ := tryMovePiece_rotate_ok h2
  obtain ⟨pc2, hc2', hc3⟩ := tryMovePiece_rotate_ok h3
  obtain ⟨pc3, hc3', hc4⟩ := tryMovePiece_rotate_ok h4
  rw [hc1] at hc1'
  rw [hc2] at hc2'
  rw [hc3] at hc3'
  simp only [Option.some.injEq] at hc1' hc2' hc3'
  subst hc1'
  subst hc2'
  subst hc3'
  rw [hc4, hc0, rotatePiece_four]

/-- Claim C8 (counterexample): Player2's laser origin is `(0,7)`, so the
row nearest it is row 7 — but the server's starting board has no piece at
row 7, column 4 (`cell[7][4]`); Player2's king actually sits at
`cell[0][4]`, row 0.  The claim's placement (king at column 4 of the row
nearest Player2's origin) is therefore false of the constructed board. -/
theorem claim8_counterexample :
    (playerLaser .player2).position = ⟨0, 7⟩ ∧
    initialBoard 7 4 = none ∧
    (initialBoard 7 4 = some ⟨.king, .player2⟩) = False ∧
    initialBoard 0 4 = some ⟨.king, .player2⟩ :=
  ⟨rfl, rfl, eq_false (by decide), rfl⟩

/-- Claim C8 (amended): the server's starting board places Player2's king
at column 4 of row 0 — the row of Player1's laser origin `(7,0)`, i.e.
the row farthest from Player2's own origin — and Player1's king at column
3 of the opposite row 7 (the row of Player2's origin `(0,7)`); the laser
origins themselves are as the claim states them. -/
theorem claim8_initial_board :
    initialBoard 0 4 = some ⟨.king, .player2⟩ ∧
    initialBoard 7 3 = some ⟨.king, .player1⟩ ∧
    playerLaser .player1 = ⟨⟨7, 0⟩, .north⟩ ∧
    playerLaser .player2 = ⟨⟨0, 7⟩, .south⟩ ∧
    (playerLaser .player1).position.y = 0 ∧
    (playerLaser .player2).position.y = 7 :=
  ⟨rfl, rfl, rfl, rfl, rfl, rfl⟩

/-- Claim C10: `cast_laser` tests the cell at the laser's current
position before stepping, so when the mover's firing corner (`(7,0)` for
Player1, `(0,7)` for Player2) is occupied by any piece — of either player
— the cast resolves at that corner immediately, at distance 0, with the
laser's initial heading still in force. -/
theorem claim10_corner_hit (b : Board) (p : Player) (pc : Piece)
    (h : cellAt b (playerLaser p).position = some (some pc)) :
    castLaser b (playerLaser p) = some (some ((playerLaser p).position, pc)) := by
  unfold castLaser castLaserAux
  rw [h]

/-- Witness for C10: a stacked Block of Player2 sitting on Player1's own
firing corner `(7,0)` is hit at distance 0. -/
theorem claim10_witness :
    castLaser cornerBoard (playerLaser .player1)
      = some (some (⟨7, 0⟩, ⟨.block true, .player2⟩)) :=
  claim10_corner_hit cornerBoard .player1 ⟨.block true, .player2⟩ (by decide)

/-- Claim C5: `try_move_piece` rejects in the fixed order — an empty
`from` cell yields `NoPieceAtFrom`, and an occupied `from` cell whose
piece belongs to the opponent yields `NotYourPiece` whatever the rest of
the move looks like (the kind-specific checks are never reached). -/
theorem claim5_first_failure (b : Board) (m : Move) (p : Player) :
    (cellAt b m.from' = some none →
      tryMovePiece b m p = some (.error .noPieceAtFrom)) ∧
    (∀ pc : Piece, cellAt b m.from' = some (some pc) → pc.allegiance ≠ p →
      tryMovePiece b m p = some (.error .notYourPiece)) := by
  constructor
  · intro h
    unfold tryMovePiece
    rw [h]
  · intro pc h hne
    unfold tryMovePiece
    rw [h]
    simp only [if_neg hne]

/-- Witness for C5: on the server's starting board, moving from the empty
cell `(0,0)` is `NoPieceAtFrom`, and Player1 trying to move Player2's
king at `(4,0)` — an otherwise perfectly legal one-step move north — is
`NotYourPiece`. -/
theorem claim5_witness :
    tryMovePiece initialBoard ⟨⟨0, 0⟩, .move .north⟩ .player1
      = some (.error .noPieceAtFrom) ∧
    tryMovePiece initialBoard ⟨⟨4, 0⟩, .move .north⟩ .player1
      = some (.error .notYourPiece) :=
  ⟨(claim5_first_failure initialBoard ⟨⟨0, 0⟩, .move .north⟩ .player1).1 (by decide),
   (claim5_first_failure initialBoard ⟨⟨4, 0⟩, .move .north⟩ .player1).2
     ⟨.king, .player2⟩ (by decide) (by decide)⟩

/-- Witness for C7: Player1's `OneSide(NE)` mirror at `(0,0)` survives
four clockwise rotations and ends exactly as it started. -/
theorem claim7_witness :
    ∃ b1 b2 b3 b4 : Board,
      tryMovePiece mirrorBoard ⟨⟨0, 0⟩, .rotate .clockwise⟩ .player1 = some (.ok b1) ∧
      tryMovePiece b1 ⟨⟨0, 0⟩, .rotate .clockwise⟩ .player1 = some (.ok b2) ∧
      tryMovePiece b2 ⟨⟨0, 0⟩, .rotate .clockwise⟩ .player1 = some (.ok b3) ∧
      tryMovePiece b3 ⟨⟨0, 0⟩, .rotate .clockwise⟩ .player1 = some (.ok b4) ∧
      cellAt b4 ⟨0, 0⟩ = cellAt mirrorBoard ⟨0, 0⟩ := by
  refine ⟨_, _, _, _, rfl, rfl, rfl, rfl, ?_⟩
  exact claim7_rotation_closure.2 mirrorBoard _ _ _ _ ⟨0, 0⟩ .clockwise .player1
    rfl rfl rfl rfl

/-- Claim C4: whenever `try_move` rejects a move with any `InvalidMove`,
the board handed back is exactly the board passed in — no cell was
written on any failure path. -/
theorem claim4_error_preserves_board (b b' : Board) (m : Move) (p : Player)
    (e : InvalidMove) (h : tryMove b m p = some (b', some e)) : b' = b := by
  unfold tryMove at h
  split at h
  · exact Option.noConfusion h
  · simp only [Option.some.injEq, Prod.mk.injEq] at h
    exact h.1.symm
  · split at h
    · exact Option.noConfusion h
    · simp at h
    · split at h
      · exact Option.noConfusion h
      · simp at h

/-- Witness for C4: a move from the empty cell `(0,0)` of the starting
board is rejected with `NoPieceAtFrom` and the board is unchanged. -/
theorem claim4_witness :
    ∃ bf : Board,
      tryMove initialBoard ⟨⟨0, 0⟩, .move .north⟩ .player1
        = some (bf, some .noPieceAtFrom) ∧ bf = initialBoard :=
  ⟨initialBoard, rfl,
    claim4_error_preserves_board initialBoard initialBoard
      ⟨⟨0, 0⟩, .move .north⟩ .player1 .noPieceAtFrom rfl⟩

/-- Claim C9: `try_move_piece` indexes the grid at `move.from` without a
bounds check: with `from` on the grid every array access it performs is
in bounds (the call returns a value), while any off-grid `from` hits the
out-of-range access (modelled as `none`) instead of producing any
`InvalidMove` — no variant of the error taxonomy covers it. -/
theorem claim9_from_bounds (b : Board) (m : Move) (p : Player) :
    (InGridP m.from' → (tryMovePiece b m p).isSome = true) ∧
    (¬ InGridP m.from' → tryMovePiece b m p = none) := by
  constructor
  · intro hg
    unfold tryMovePiece
    rcases hc : cellAt b m.from' with _ | v
    · have hs := cellAt_isSome_of_inGrid b hg
      rw [hc] at hs
      exact Bool.noConfusion hs
    · simp only [hc]
      rcases v with _ | pc
      · rfl
      · by_cases ha : pc.allegiance = p
        · simp only [if_pos ha]
          rcases m.kind with d | ch
          · rcases ho : addCompassOctant m.from' d with _ | tpos
            · simp [ho]
            · have htg := addCompassOctant_inGrid hg ho
              rcases hc2 : cellAt b tpos with _ | w
              · have hs := cellAt_isSome_of_inGrid b htg
                rw [hc2] at hs
                exact Bool.noConfusion hs
              · rcases w with _ | pc2
                · rcases hs1 : setCell b tpos (some pc) with _ | b1
                  · have hs := setCell_isSome_of_inGrid b (some pc) htg
                    rw [hs1] at hs
                    exact Bool.noConfusion hs
                  · rcases hs2 : setCell b1 m.from' none with _ | b2
                    · have hs := setCell_isSome_of_inGrid b1 none hg
                      rw [hs2] at hs
                      exact Bool.noConfusion hs
                    · simp [ho, hc, hc2, hs1, hs2]
                · simp [ho, hc2]
          · rcases hk : pc.kind with _ | st | o | o
            · simp [hk]
            · simp [hk]
            · rcases hs1 : setCell b m.from'
                  (some ⟨.oneSide (o.rotate ch), pc.allegiance⟩) with _ | b1
              · have hs := setCell_isSome_of_inGrid b
                  (some ⟨.oneSide (o.rotate ch), pc.allegiance⟩) hg
                rw [hs1] at hs
                exact Bool.noConfusion hs
              · simp [hk, hs1]
            · rcases hs1 : setCell b m.from'
                  (some ⟨.twoSide (o.rotate ch), pc.allegiance⟩) with _ | b1
              · have hs := setCell_isSome_of_inGrid b
                  (some ⟨.twoSide (o.rotate ch), pc.allegiance⟩) hg
                rw [hs1] at hs
                exact Bool.noConfusion hs
              · simp [hk, hs1]
        · simp only [if_neg ha]
          rfl
  · intro hng
    unfold tryMovePiece
    rw [cellAt_of_not_inGrid hng]

/-- Witness for C9: on the starting board, the on-grid `from` `(0,0)`
returns a value (a rejection, but no panic), while the off-grid `from`
`(0,8)` panics — `none`, not an `InvalidMove`. -/
theorem claim9_witness :
    (tryMovePiece initialBoard ⟨⟨0, 0⟩, .move .north⟩ .player1).isSome = true ∧
    tryMovePiece initialBoard ⟨⟨0, 8⟩, .move .north⟩ .player1 = none :=
  ⟨(claim9_from_bounds initialBoard ⟨⟨0, 0⟩, .move .north⟩ .player1).1 (by decide),
   (claim9_from_bounds initialBoard ⟨⟨0, 8⟩, .move .north⟩ .player1).2 (by decide)⟩

theorem countP_flatMap {α β : Type} (p : β → Bool) (f : α → List β) :
    ∀ l : List α, (l.flatMap f).countP p = (l.map fun a => (f a).countP p).sum
  | [] => rfl
  | a :: l => by
    simp only [List.flatMap_cons, List.countP_append, List.map_cons, List.sum_cons,
      countP_flatMap p f l]

theorem sum_map_boole_eq_countP {α β : Type} (p : β → Bool) (g : α → β) :
    ∀ l : List α,
      (l.map fun a => if p (g a) then 1 else 0).sum = (l.map g).countP p
  | [] => rfl
  | a :: l => by
    simp only [List.map_cons, List.sum_cons, List.countP_cons,
      sum_map_boole_eq_countP p g l]
    omega

theorem kingsCount_eq_countP (b : Board) :
    kingsCount b = (boardCells b).countP isKingCell := by
  rw [kingsCount, Finset.card_eq_sum_ones, Finset.sum_filter, Fintype.sum_prod_type]
  rw [Fin.sum_univ_def]
  rw [boardCells, countP_flatMap]
  have hfun : (fun y : Fin 8 => ∑ x : Fin 8, if isKingCell (b y x) then 1 else 0)
      = fun y : Fin 8 => ((List.finRange 8).map (b y)).countP isKingCell := by
    funext y
    rw [Fin.sum_univ_def, sum_map_boole_eq_countP]
  rw [hfun]

theorem kingsCount_setCell_none {b b' : Board} {q : Pos} {pc : Piece}
    (hk : pc.kind = .king) (hc : cellAt b q = some (some pc))
    (hs : setCell b q none = some b') :
    kingsCount b' + 1 = kingsCount b := by
  have hp : q.y < 8 ∧ q.x < 8 := cellAt_inGrid hc
  unfold setCell at hs
  rw [dif_pos hp] at hs
  cases hs
  unfold cellAt at hc
  rw [dif_pos hp] at hc
  injection hc with hbq
  obtain ⟨k, a⟩ := pc
  simp only at hk
  subst hk
  have hmem : ((⟨q.y, hp.1⟩ : Fin 8), (⟨q.x, hp.2⟩ : Fin 8)) ∈
      Finset.univ.filter (fun t : Fin 8 × Fin 8 => isKingCell (b t.1 t.2)) := by
    simp only [Finset.mem_filter, Finset.mem_univ, true_and, hbq]
    rfl
  unfold kingsCount
  have hfilter : (Finset.univ.filter (fun t : Fin 8 × Fin 8 =>
        isKingCell (if t.1 = ⟨q.y, hp.1⟩ ∧ t.2 = ⟨q.x, hp.2⟩ then none else b t.1 t.2)))
      = (Finset.univ.filter (fun t : Fin 8 × Fin 8 =>
          isKingCell (b t.1 t.2))).erase (⟨q.y, hp.1⟩, ⟨q.x, hp.2⟩) := by
    ext t
    simp only [Finset.mem_filter, Finset.mem_erase, Finset.mem_univ, true_and]
    by_cases ht : t = ((⟨q.y, hp.1⟩ : Fin 8), (⟨q.x, hp.2⟩ : Fin 8))
    · subst ht
      simp [isKingCell]
    · have hne : ¬(t.1 = (⟨q.y, hp.1⟩ : Fin 8) ∧ t.2 = (⟨q.x, hp.2⟩ : Fin 8)) := by
        intro hcon
        exact ht (Prod.ext hcon.1 hcon.2)
      simp only [if_neg hne, ht, not_false_iff, true_and]
      tauto
  rw [hfilter, Finset.card_erase_of_mem hmem]
  have hpos : 0 < (Finset.univ.filter
      (fun t : Fin 8 × Fin 8 => isKingCell (b t.1 t.2))).card :=
    Finset.card_pos.mpr ⟨_, hmem⟩
  omega

/-- Claim C6: `game_over` is true exactly when fewer than two cells hold
a King; with two kings on the board it is false, and after blanking
either king's cell it is true. -/
theorem claim6_game_over (b : Board) :
    (gameOver b = true ↔ kingsCount b < 2) ∧
    (kingsCount b = 2 → gameOver b = false) ∧
    (∀ (q : Pos) (pc : Piece) (b' : Board), pc.kind = .king →
      cellAt b q = some (some pc) → kingsCount b = 2 →
      setCell b q none = some b' → gameOver b' = true) := by
  have hiff : ∀ c : Board, gameOver c = true ↔ kingsCount c < 2 := by
    intro c
    unfold gameOver
    rw [kingsCount_eq_countP c]
    simp
  refine ⟨hiff b, ?_, ?_⟩
  · intro h2
    cases hg : gameOver b
    · rfl
    · have := (hiff b).mp hg
      omega
  · intro q pc b' hk hc h2 hs
    have := kingsCount_setCell_none hk hc hs
    exact (hiff b').mpr (by omega)

/-- Witness for C6: the server's starting board (both kings present) is
not game over; blanking Player2's king cell `(4,0)` makes it game over. -/
theorem claim6_witness :
    gameOver initialBoard = false ∧
    (∃ b' : Board, setCell initialBoard ⟨4, 0⟩ none = some b' ∧
      gameOver b' = true) := by
  constructor
  · exact (claim6_game_over initialBoard).2.1 (by decide)
  · refine ⟨_, rfl, ?_⟩
    exact (claim6_game_over initialBoard).2.2 ⟨4, 0⟩ ⟨.king, .player2⟩ _ rfl
      (by decide) (by decide) rfl

theorem castLaserAux_hit_cell {b : Board} :
    ∀ {fuel : Nat} {l : Laser} {c : Pos} {pc : Piece},
      castLaserAux b fuel l = some (some (c, pc)) → cellAt b c = some (some pc) := by
  intro fuel
  induction fuel with
  | zero => intro l c pc h; exact Option.noConfusion h
  | succ n ih =>
    intro l c pc h
    unfold castLaserAux at h
    rcases hc : cellAt b l.position with _ | v
    · rw [hc] at h
      exact Option.noConfusion h
    · rw [hc] at h
      rcases v with _ | piece
      · rcases ha : l.advance with _ | l'
        · rw [ha] at h
          simp at h
        · rw [ha] at h
          exact ih h
      · simp only [Option.some.injEq, Prod.mk.injEq] at h
        obtain ⟨h1, h2⟩ := h
        rw [← h1, ← h2]
        exact hc

theorem bounceLaser_hit_reflect {b : Board} :
    ∀ {n : Nat} {l : Laser} {c : Pos} {st : Option Piece},
      bounceLaser b n l = some (some (c, st)) →
      ∃ (pc : Piece) (d : CompassQuadrant),
        cellAt b c = some (some pc) ∧ pc.reflect d = .error st := by
  intro n
  induction n with
  | zero => intro l c st h; exact Option.noConfusion h
  | succ n ih =>
    intro l c st h
    unfold bounceLaser at h
    split at h
    · exact Option.noConfusion h
    · simp at h
    · rename_i hitCoord hitPiece hcast
      split at h
      · split at h
        · simp at h
        · exact ih h
      · rename_i st' hr
        simp only [Option.some.injEq, Prod.mk.injEq] at h
        obtain ⟨h1, h2⟩ := h
        subst h1
        subst h2
        exact ⟨hitPiece, l.direction, castLaserAux_hit_cell hcast, hr⟩

theorem oneSide_reflect_error :
    ∀ (o : Orientation) (d : CompassQuadrant) (e : Option PieceKind),
      (PieceKind.oneSide o).reflect d = .error e → e = none := by
  decide

theorem twoSide_reflect_ok :
    ∀ (o : Orientation) (d : CompassQuadrant) (e : Option PieceKind),
      ¬ (PieceKind.twoSide o).reflect d = .error e := by
  decide

/-- Claim C1 (amended): when laser resolution terminates at a `OneSide`
mirror (necessarily struck on a heading its orientation does not
reflect), the replacement state written back is `none` — the mirror is
removed from the board, exactly like a King or an un-stacked Block, not
left in place; and resolution never terminates at a `TwoSide` mirror at
all, since every heading reflects off it. -/
theorem claim1_mirror_hit_removed (b : Board) (n : Nat) (l : Laser) (c : Pos)
    (st : Option Piece) (pc : Piece)
    (hb : bounceLaser b n l = some (some (c, st)))
    (hc : cellAt b c = some (some pc)) :
    (∀ o, pc.kind = .oneSide o → st = none) ∧
    (∀ o, pc.kind = .twoSide o → False) := by
  obtain ⟨pc', d, hc', hr⟩ := bounceLaser_hit_reflect hb
  rw [hc] at hc'
  simp only [Option.some.injEq] at hc'
  subst hc'
  constructor
  · intro o hk
    unfold Piece.reflect at hr
    rcases hkr : pc.kind.reflect d with e | d2
    · rw [hkr] at hr
      rw [hk] at hkr
      have he : e = none := oneSide_reflect_error o d e hkr
      subst he
      simp only [Option.map_none'] at hr
      injection hr with hr'
      exact hr'.symm
    · rw [hkr] at hr
      exact Except.noConfusion hr
  · intro o hk
    unfold Piece.reflect at hr
    rcases hkr : pc.kind.reflect d with e | d2
    · rw [hk] at hkr
      exact twoSide_reflect_ok o d e hkr
    · rw [hkr] at hr
      exact Except.noConfusion hr

/-- Claim C1 (counterexample): in the spec's §8 scenario board, Player1
moves their king one step west; the laser then travels north up column 7
and strikes Player2's `OneSide(NW)` mirror at `(7,3)` on heading north —
a heading the NW orientation does not reflect.  The claim says the board
is left unchanged at that cell; the code instead removes the mirror: the
final board holds `none` at `(7,3)`, not the original mirror piece. -/
theorem claim1_counterexample :
    cellAt scenarioBoard ⟨7, 3⟩ = some (some ⟨.oneSide .NW, .player2⟩) ∧
    (tryMove scenarioBoard ⟨⟨3, 7⟩, .move .west⟩ .player1).map
      (fun r => (r.2, cellAt r.1 ⟨7, 3⟩)) = some (none, some none) ∧
    ((some none : Option (Option Piece))
      = some (some ⟨.oneSide .NW, .player2⟩)) = False :=
  ⟨by decide, by decide, eq_false (by decide)⟩

/-- Witness for C1 (amended): on the §8 scenario board, the laser run
from Player1's corner terminates at the `OneSide(NW)` mirror at `(7,3)`
and the replacement state is `none` (removal). -/
theorem claim1_witness :
    ∃ st : Option Piece,
      bounceLaser scenarioBoard 256 (playerLaser .player1)
        = some (some (⟨7, 3⟩, st)) ∧ st = none :=
  ⟨none, by decide,
    (claim1_mirror_hit_removed scenarioBoard 256 (playerLaser .player1) ⟨7, 3⟩
      none ⟨.oneSide .NW, .player2⟩ (by decide) (by decide)).1 .NW rfl⟩

theorem loopBoard_diverges :
    ∀ n : Nat,
      bounceLaser loopBoard n loopLaser0 = none ∧
      bounceLaser loopBoard n loopLaser1 = none ∧
      bounceLaser loopBoard n loopLaser2 = none ∧
      bounceLaser loopBoard n loopLaser3 = none := by
  intro n
  induction n with
  | zero => exact ⟨rfl, rfl, rfl, rfl⟩
  | succ n ih => exact ⟨ih.2.1, ih.2.2.1, ih.2.2.2, ih.1⟩

/-- Claim C2 (counterexample): on `loopBoard` — four `TwoSide` mirrors in
a closed reflection loop — the laser starting at `(5,3)` heading north
cycles through four states forever: `bounce_laser` returns no result at
any recursion depth, i.e. the source recursion does not terminate for
this board and initial laser. -/
theorem claim2_counterexample : BounceTerminates loopBoard loopLaser0 = False := by
  apply eq_false
  rintro ⟨n, r, hr⟩
  rw [(loopBoard_diverges n).1] at hr
  exact Option.noConfusion hr

theorem Laser.advance_eq {l l' : Laser} (h : l.advance = some l') :
    addCompassQuadrant l.position l.direction = some l'.position ∧
      l'.direction = l.direction := by
  unfold Laser.advance at h
  rcases ha : addCompassQuadrant l.position l.direction with _ | p
  · rw [ha] at h
    exact Option.noConfusion h
  · rw [ha] at h
    simp only [Option.map_some', Option.some.injEq] at h
    rw [← h]
    exact ⟨rfl, rfl⟩

theorem remSteps_addQ {p q : Pos} {d : CompassQuadrant}
    (ha : addCompassQuadrant p d = some q) :
    remSteps q d + 1 = remSteps p d := by
  obtain ⟨px, py⟩ := p
  cases d
  case north =>
    simp only [addCompassQuadrant] at ha
    split at ha
    · cases ha
      simp only [remSteps]
      omega
    · exact Option.noConfusion ha
  case east =>
    simp only [addCompassQuadrant] at ha
    split at ha
    · cases ha
      simp only [remSteps]
      omega
    · exact Option.noConfusion ha
  case south =>
    cases py with
    | zero => exact Option.noConfusion ha
    | succ k =>
      cases ha
      simp only [remSteps]
  case west =>
    cases px with
    | zero => exact Option.noConfusion ha
    | succ k =>
      cases ha
      simp only [remSteps]

theorem remSteps_advance {l l' : Laser} (h : l.advance = some l') :
    remSteps l'.position l'.direction + 1 = remSteps l.position l.direction := by
  obtain ⟨ha, hd⟩ := Laser.advance_eq h
  rw [hd]
  exact remSteps_addQ ha

theorem remSteps_lt_eight {p : Pos} (hg : InGridP p) (d : CompassQuadrant) :
    remSteps p d < 8 := by
  obtain ⟨hy, hx⟩ := hg
  cases d <;> simp only [remSteps] <;> omega

theorem castLaserAux_isSome {b : Board} :
    ∀ (fuel : Nat) (l : Laser), InGridP l.position →
      remSteps l.position l.direction < fuel →
      (castLaserAux b fuel l).isSome = true := by
  intro fuel
  induction fuel with
  | zero =>
    intro l hg hr
    omega
  | succ n ih =>
    intro l hg hr
    unfold castLaserAux
    rcases hc : cellAt b l.position with _ | v
    · have hs := cellAt_isSome_of_inGrid b hg
      rw [hc] at hs
      exact Bool.noConfusion hs
    · rcases v with _ | pc
      · rcases ha : l.advance with _ | l'
        · simp [hc, ha]
        · simp only [hc, ha]
          have hg' : InGridP l'.position :=
            addCompassQuadrant_inGrid hg (Laser.advance_eq ha).1
          have hrem := remSteps_advance ha
          exact ih l' hg' (by omega)
      · simp [hc]

theorem castLaser_isSome (b : Board) (l : Laser) (hg : InGridP l.position) :
    (castLaser b l).isSome = true :=
  castLaserAux_isSome 8 l hg (remSteps_lt_eight hg l.direction)

theorem stepN_add (d : CompassQuadrant) :
    ∀ (m n : Nat) (p : Pos),
      stepN d p (m + n) = (stepN d p m).bind fun q => stepN d q n := by
  intro m
  induction m with
  | zero =>
    intro n p
    rw [Nat.zero_add]
    rfl
  | succ m ih =>
    intro n p
    rw [Nat.succ_add]
    rcases h : addCompassQuadrant p d with _ | q
    · simp [stepN, h]
    · simp only [stepN, h]
      exact ih n q

theorem stepN_inj (d : CompassQuadrant) :
    ∀ (n : Nat) (p p' c : Pos),
      stepN d p n = some c → stepN d p' n = some c → p = p' := by
  intro n
  induction n with
  | zero =>
    intro p p' c h h'
    simp only [stepN, Option.some.injEq] at h h'
    rw [h, h']
  | succ n ih =>
    intro p p' c h h'
    rcases hq : addCompassQuadrant p d with _ | q
    · simp [stepN, hq] at h
    · rcases hq' : addCompassQuadrant p' d with _ | q'
      · simp [stepN, hq'] at h'
      · simp only [stepN, hq] at h
        simp only [stepN, hq'] at h'
        have := ih q q' c h h'
        rw [this] at hq
        exact addCompassQuadrant_inj hq hq'

theorem stepN_inGrid (d : CompassQuadrant) :
    ∀ (n : Nat) (p q : Pos), InGridP p → stepN d p n = some q → InGridP q := by
  intro n
  induction n with
  | zero =>
    intro p q hg h
    simp only [stepN, Option.some.injEq] at h
    rw [← h]
    exact hg
  | succ n ih =>
    intro p q hg h
    rcases hq : addCompassQuadrant p d with _ | q1
    · simp [stepN, hq] at h
    · simp only [stepN, hq] at h
      exact ih q1 q (addCompassQuadrant_inGrid hg hq) h

theorem castLaserAux_path {b : Board} :
    ∀ {fuel : Nat} {l : Laser} {c : Pos} {pc : Piece},
      castLaserAux b fuel l = some (some (c, pc)) →
      ∃ n, stepN l.direction l.position n = some c ∧
        ∀ m q', m < n → stepN l.direction l.position m = some q' →
          cellAt b q' = some none := by
  intro fuel
  induction fuel with
  | zero => intro l c pc h; exact Option.noConfusion h
  | succ fuel ih =>
    intro l c pc h
    unfold castLaserAux at h
    rcases hc : cellAt b l.position with _ | v
    · rw [hc] at h
      exact Option.noConfusion h
    · rw [hc] at h
      rcases v with _ | piece
      · rcases ha : l.advance with _ | l'
        · rw [ha] at h
          simp at h
        · rw [ha] at h
          obtain ⟨n', hstep, hempty⟩ := ih h
          obtain ⟨hadv, hdir⟩ := Laser.advance_eq ha
          rw [hdir] at hstep hempty
          refine ⟨n' + 1, ?_, ?_⟩
          · rw [Nat.add_comm, stepN_add]
            simp only [stepN, hadv, Option.some_bind]
            exact hstep
          · intro m q' hm hq'
            cases m with
            | zero =>
              simp only [stepN, Option.some.injEq] at hq'
              rw [← hq']
              exact hc
            | succ m' =>
              rw [Nat.add_comm, stepN_add] at hq'
              simp only [stepN, hadv, Option.some_bind] at hq'
              exact hempty m' q' (by omega) hq'
      · simp only [Option.some.injEq, Prod.mk.injEq] at h
        obtain ⟨h1, h2⟩ := h
        refine ⟨0, by rw [← h1]; rfl, ?_⟩
        intro m q' hm hq'
        omega

theorem pieceKind_reflect_inj :
    ∀ (k : PieceKind) (d1 d2 d' : CompassQuadrant),
      k.reflect d1 = .ok d' → k.reflect d2 = .ok d' → d1 = d2 := by
  decide

theorem piece_reflect_ok_iff {pc : Piece} {d d' : CompassQuadrant} :
    pc.reflect d = .ok d' ↔ pc.kind.reflect d = .ok d' := by
  unfold Piece.reflect
  rcases h : pc.kind.reflect d with e | x <;> simp [h]

theorem piece_reflect_inj {pc : Piece} {d1 d2 d' : CompassQuadrant}
    (h1 : pc.reflect d1 = .ok d') (h2 : pc.reflect d2 = .ok d') : d1 = d2 :=
  pieceKind_reflect_inj pc.kind d1 d2 d'
    (piece_reflect_ok_iff.mp h1) (piece_reflect_ok_iff.mp h2)

theorem nextLaser_spec {b : Board} {l l' : Laser} (h : nextLaser b l = some l') :
    ∃ (c : Pos) (pc : Piece),
      castLaser b l = some (some (c, pc)) ∧
      pc.reflect l.direction = .ok l'.direction ∧
      addCompassQuadrant c l'.direction = some l'.position := by
  unfold nextLaser at h
  split at h
  · rename_i hitCoord hitPiece hcast
    split at h
    · rename_i d' hrefl
      obtain ⟨hadd, hdir⟩ := Laser.advance_eq h
      refine ⟨hitCoord, hitPiece, hcast, ?_, ?_⟩
      · rw [hdir]
        exact hrefl
      · rw [hdir]
        exact hadd
    · exact Option.noConfusion h
  · exact Option.noConfusion h

theorem nextLaser_reflGen {b : Board} {l l' : Laser} (h : nextLaser b l = some l') :
    ReflGen b l' ∧ InGridP l'.position := by
  obtain ⟨c, pc, hcast, hrefl, hadd⟩ := nextLaser_spec h
  have hcell := castLaserAux_hit_cell hcast
  exact ⟨⟨c, pc, hcell, hadd⟩,
    addCompassQuadrant_inGrid (cellAt_inGrid hcell) hadd⟩

theorem stepN_between {d : CompassQuadrant} {qa qb c : Pos} {na nb : Nat}
    (ha : stepN d qa na = some c) (hb : stepN d qb nb = some c) (hlt : na < nb) :
    ∃ u, stepN d qb (nb - na - 1) = some u ∧
      addCompassQuadrant u d = some qa := by
  have hdecomp : stepN d qb ((nb - na) + na) = some c := by
    rw [Nat.sub_add_cancel (le_of_lt hlt)]
    exact hb
  rw [stepN_add] at hdecomp
  rcases hw : stepN d qb (nb - na) with _ | w
  · rw [hw] at hdecomp
    simp at hdecomp
  · rw [hw] at hdecomp
    simp only [Option.some_bind] at hdecomp
    have hwq : w = qa := stepN_inj d na w qa c hdecomp ha
    subst hwq
    have hsplit : stepN d qb ((nb - na - 1) + 1) = some w := by
      rw [Nat.sub_add_cancel (by omega)]
      exact hw
    rw [stepN_add] at hsplit
    rcases hu : stepN d qb (nb - na - 1) with _ | u
    · rw [hu] at hsplit
      simp at hsplit
    · rw [hu] at hsplit
      simp only [Option.some_bind] at hsplit
      rcases hau : addCompassQuadrant u d with _ | q
      · simp [stepN, hau] at hsplit
      · simp only [stepN, hau] at hsplit
        simp only [Option.some.injEq] at hsplit
        rw [hsplit] at hau
        exact ⟨u, rfl, hau⟩

theorem laser_eq_of_parts {l1 l2 : Laser} (hp : l1.position = l2.position)
    (hd : l1.direction = l2.direction) : l1 = l2 := by
  obtain ⟨p1, d1⟩ := l1
  obtain ⟨p2, d2⟩ := l2
  simp only at hp hd
  rw [hp, hd]

theorem nextLaser_same_succ {b : Board} {l1 l2 l' : Laser}
    (h1 : nextLaser b l1 = some l') (h2 : nextLaser b l2 = some l') :
    l1.direction = l2.direction ∧
    (l1 = l2 ∨
      (∃ u, cellAt b u = some none ∧
        addCompassQuadrant u l1.direction = some l1.position ∧ InGridP u) ∨
      (∃ u, cellAt b u = some none ∧
        addCompassQuadrant u l2.direction = some l2.position ∧ InGridP u)) := by
  obtain ⟨c1, pc1, hcast1, hrefl1, hadd1⟩ := nextLaser_spec h1
  obtain ⟨c2, pc2, hcast2, hrefl2, hadd2⟩ := nextLaser_spec h2
  have hc12 : c1 = c2 := addCompassQuadrant_inj hadd1 hadd2
  subst hc12
  have hcell1 := castLaserAux_hit_cell hcast1
  have hcell2 := castLaserAux_hit_cell hcast2
  rw [hcell1] at hcell2
  simp only [Option.some.injEq] at hcell2
  subst hcell2
  have hdir : l1.direction = l2.direction := piece_reflect_inj hrefl1 hrefl2
  refine ⟨hdir, ?_⟩
  obtain ⟨n1, hstep1, hempty1⟩ := castLaserAux_path hcast1
  obtain ⟨n2, hstep2, hempty2⟩ := castLaserAux_path hcast2
  rw [← hdir] at hstep2 hempty2
  rcases Nat.lt_trichotomy n1 n2 with hlt | heq | hgt
  · right
    left
    obtain ⟨u, hu, hau⟩ := stepN_between hstep1 hstep2 hlt
    refine ⟨u, hempty2 (n2 - n1 - 1) u (by omega) hu, hau, ?_⟩
    exact cellAt_inGrid (hempty2 (n2 - n1 - 1) u (by omega) hu)
  · left
    subst heq
    exact laser_eq_of_parts (stepN_inj _ n1 l1.position l2.position c1
      hstep1 hstep2) hdir
  · right
    right
    obtain ⟨u, hu, hau⟩ := stepN_between hstep2 hstep1 hgt
    rw [hdir] at hau
    refine ⟨u, hempty1 (n1 - n2 - 1) u (by omega) hu, hau, ?_⟩
    exact cellAt_inGrid (hempty1 (n1 - n2 - 1) u (by omega) hu)

theorem nextLaser_backdet {b : Board} {l1 l2 l' : Laser}
    (h1 : nextLaser b l1 = some l') (h2 : nextLaser b l2 = some l')
    (hr1 : ReflGen b l1) (hr2 : ReflGen b l2) : l1 = l2 := by
  obtain ⟨hdir, hcase⟩ := nextLaser_same_succ h1 h2
  rcases hcase with h | ⟨u, hu, hadd, hug⟩ | ⟨u, hu, hadd, hug⟩
  · exact h
  · obtain ⟨cp, pcp, hcp, haddp⟩ := hr1
    have heq := addCompassQuadrant_inj hadd haddp
    rw [heq, hcp] at hu
    simp at hu
  · obtain ⟨cp, pcp, hcp, haddp⟩ := hr2
    have heq := addCompassQuadrant_inj hadd haddp
    rw [heq, hcp] at hu
    simp at hu

theorem nextLaser_noPred {b : Board} {l1 l2 l' : Laser}
    (h1 : nextLaser b l1 = some l') (h2 : nextLaser b l2 = some l')
    (hnp : NoPredecessor l1) (hr2 : ReflGen b l2) : False := by
  obtain ⟨hdir, hcase⟩ := nextLaser_same_succ h1 h2
  rcases hcase with h | ⟨u, hu, hadd, hug⟩ | ⟨u, hu, hadd, hug⟩
  · subst h
    obtain ⟨cp, pcp, hcp, haddp⟩ := hr2
    exact hnp cp (cellAt_inGrid hcp) haddp
  · exact hnp u hug hadd
  · obtain ⟨cp, pcp, hcp, haddp⟩ := hr2
    have heq := addCompassQuadrant_inj hadd haddp
    rw [heq, hcp] at hu
    simp at hu

theorem dirIdx_inj {d1 d2 : CompassQuadrant} (h : dirIdx d1 = dirIdx d2) :
    d1 = d2 := by
  cases d1 <;> cases d2 <;> first
    | rfl
    | exact absurd h (by decide)

theorem pos_eq_of_parts {p q : Pos} (hx : p.x = q.x) (hy : p.y = q.y) : p = q := by
  obtain ⟨a, b⟩ := p
  obtain ⟨c, d⟩ := q
  simp only at hx hy
  rw [hx, hy]

theorem bounceLaser_none_succ {b : Board} {n : Nat} {l : Laser}
    (hg : InGridP l.position) (h : bounceLaser b (n + 1) l = none) :
    ∃ l', nextLaser b l = some l' ∧ bounceLaser b n l' = none ∧
      InGridP l'.position := by
  unfold bounceLaser at h
  split at h
  · rename_i hcast
    have hs := castLaser_isSome b l hg
    rw [hcast] at hs
    exact Bool.noConfusion hs
  · exact Option.noConfusion h
  · rename_i hitCoord hitPiece hcast
    split at h
    · rename_i d' hrefl
      split at h
      · exact Option.noConfusion h
      · rename_i l2 hadv
        refine ⟨l2, ?_, h, ?_⟩
        · simp only [nextLaser, hcast, hrefl]
          exact hadv
        · have hcg := cellAt_inGrid (castLaserAux_hit_cell hcast)
          exact addCompassQuadrant_inGrid hcg (Laser.advance_eq hadv).1
    · exact Option.noConfusion h

theorem trajAux_next {b : Board} {l0 : Laser} {k : Nat} {l' : Laser}
    (h : nextLaser b (trajAux b l0 k) = some l') : trajAux b l0 (k + 1) = l' := by
  unfold trajAux
  rw [h]

theorem bounce_chain {b : Board} {l0 : Laser} {N : Nat}
    (hg0 : InGridP l0.position) (hN : bounceLaser b N l0 = none) :
    ∀ k, k ≤ N → InGridP (trajAux b l0 k).position ∧
      bounceLaser b (N - k) (trajAux b l0 k) = none ∧
      (k < N → nextLaser b (trajAux b l0 k) = some (trajAux b l0 (k + 1))) := by
  intro k
  induction k with
  | zero =>
    intro _
    refine ⟨hg0, by simpa using hN, ?_⟩
    intro hlt
    have hh : bounceLaser b ((N - 1) + 1) l0 = none := by
      rw [Nat.sub_add_cancel (by omega)]
      exact hN
    obtain ⟨l', hnext, _, _⟩ := bounceLaser_none_succ hg0 hh
    rw [trajAux_next hnext]
    exact hnext
  | succ k ih =>
    intro hk
    obtain ⟨hgk, hbk, hlink⟩ := ih (by omega)
    have hnext := hlink (by omega)
    have hb' : bounceLaser b ((N - k - 1) + 1) (trajAux b l0 k) = none := by
      rw [Nat.sub_add_cancel (by omega)]
      exact hbk
    obtain ⟨l', hnext', hb2, hg'⟩ := bounceLaser_none_succ hgk hb'
    rw [hnext'] at hnext
    have hl' : l' = trajAux b l0 (k + 1) := by
      injection hnext
    subst hl'
    have hidx : N - (k + 1) = N - k - 1 := by omega
    refine ⟨hg', by rw [hidx]; exact hb2, ?_⟩
    intro hlt'
    have hh : bounceLaser b ((N - k - 2) + 1) (trajAux b l0 (k + 1)) = none := by
      have : (N - k - 2) + 1 = N - k - 1 := by omega
      rw [this]
      exact hb2
    obtain ⟨l2, hnext2, _, _⟩ := bounceLaser_none_succ hg' hh
    rw [trajAux_next hnext2]
    exact hnext2

theorem bounce_noPred_terminates (b : Board) (l0 : Laser)
    (hg0 : InGridP l0.position) (hnp : NoPredecessor l0) :
    (bounceLaser b 256 l0).isSome = true := by
  rcases hres : bounceLaser b 256 l0 with _ | r
  · exfalso
    have chain := bounce_chain hg0 hres
    have hIG : ∀ k : Nat, k ≤ 256 → InGridP (trajAux b l0 k).position :=
      fun k hk => (chain k hk).1
    have hlinks : ∀ k : Nat, k < 256 →
        nextLaser b (trajAux b l0 k) = some (trajAux b l0 (k + 1)) :=
      fun k hk => (chain k (by omega)).2.2 hk
    have hrg : ∀ k : Nat, 1 ≤ k → k ≤ 256 → ReflGen b (trajAux b l0 k) := by
      intro k h1 h2
      have hlink := hlinks (k - 1) (by omega)
      have hr := (nextLaser_reflGen hlink).1
      have hidx : k - 1 + 1 = k := by omega
      rw [hidx] at hr
      exact hr
    have hmain : ∀ dd : Nat, 1 ≤ dd → dd ≤ 256 →
        ∀ m : Nat, m + dd ≤ 256 →
          trajAux b l0 m = trajAux b l0 (m + dd) → False := by
      intro dd hdd1 hdd2
      intro m
      induction m with
      | zero =>
        intro hle heq
        rw [Nat.zero_add] at heq
        obtain ⟨cp, pcp, hcp, haddp⟩ := hrg dd hdd1 (by omega)
        rw [← heq] at haddp
        exact hnp cp (cellAt_inGrid hcp) haddp
      | succ m ih =>
        intro hle heq
        have hn1 : nextLaser b (trajAux b l0 m) = some (trajAux b l0 (m + 1)) :=
          hlinks m (by omega)
        have hn2 : nextLaser b (trajAux b l0 (m + dd))
            = some (trajAux b l0 (m + dd + 1)) :=
          hlinks (m + dd) (by omega)
        have hidx : m + dd + 1 = m + 1 + dd := by omega
        rw [hidx, ← heq] at hn2
        cases m with
        | zero =>
          rw [Nat.zero_add] at hn2
          exact nextLaser_noPred hn1 hn2 hnp (hrg dd (by omega) (by omega))
        | succ m' =>
          have h1r : ReflGen b (trajAux b l0 (m' + 1)) := hrg (m' + 1) (by omega) (by omega)
          have h2r : ReflGen b (trajAux b l0 (m' + 1 + dd)) :=
            hrg (m' + 1 + dd) (by omega) (by omega)
          exact ih (by omega) (nextLaser_backdet hn1 hn2 h1r h2r)
    have hmod : ∀ k : Fin 257,
        (trajAux b l0 k.val).position.y % 8 = (trajAux b l0 k.val).position.y ∧
        (trajAux b l0 k.val).position.x % 8 = (trajAux b l0 k.val).position.x := by
      intro k
      have hg := hIG k.val (by omega)
      exact ⟨Nat.mod_eq_of_lt hg.1, Nat.mod_eq_of_lt hg.2⟩
    obtain ⟨i, j, hne, hfeq⟩ :=
      Fintype.exists_ne_map_eq_of_card_lt
        (fun k : Fin 257 =>
          ((⟨(trajAux b l0 k.val).position.y % 8, Nat.mod_lt _ (by omega)⟩ : Fin 8),
           (⟨(trajAux b l0 k.val).position.x % 8, Nat.mod_lt _ (by omega)⟩ : Fin 8),
           dirIdx (trajAux b l0 k.val).direction))
        (by
          rw [Fintype.card_prod, Fintype.card_prod]
          simp only [Fintype.card_fin]
          omega)
    have htraj_eq : trajAux b l0 i.val = trajAux b l0 j.val := by
      have h1 := congrArg (fun t => (Prod.fst t).val) hfeq
      have h2 := congrArg (fun t => (Prod.fst (Prod.snd t)).val) hfeq
      have h3 := congrArg (fun t => Prod.snd (Prod.snd t)) hfeq
      simp only at h1 h2 h3
      rw [(hmod i).1, (hmod j).1] at h1
      rw [(hmod i).2, (hmod j).2] at h2
      exact laser_eq_of_parts (pos_eq_of_parts h2 h1) (dirIdx_inj h3)
    rcases Nat.lt_trichotomy i.val j.val with hij | hij | hij
    · exact hmain (j.val - i.val) (by omega) (by omega) i.val (by omega)
        (by
          have hidx : i.val + (j.val - i.val) = j.val := by omega
          rw [hidx]
          exact htraj_eq)
    · exact hne (Fin.ext hij)
    · exact hmain (i.val - j.val) (by omega) (by omega) j.val (by omega)
        (by
          have hidx : j.val + (i.val - j.val) = i.val := by omega
          rw [hidx]
          exact htraj_eq.symm)
  · rfl

/-- Claim C2 (amended): laser resolution does terminate for the lasers
the engine actually fires — for every board, `bounce_laser` launched from
Player1's corner `(7,0)` heading north or Player2's corner `(0,7)`
heading south returns a result within 256 reflections (the corner states
have no on-grid predecessor, so a repeating state — the only way the
recursion could diverge — is impossible); it does not terminate for every
initial laser, as the closed-loop counterexample shows. -/
theorem claim2_corner_termination (b : Board) :
    (bounceLaser b 256 (playerLaser .player1)).isSome = true ∧
    (bounceLaser b 256 (playerLaser .player2)).isSome = true := by
  constructor
  · apply bounce_noPred_terminates
    · decide
    · intro u hu hadd
      obtain ⟨ux, uy⟩ := u
      simp only [playerLaser, addCompassQuadrant] at hadd
      split at hadd
      · simp only [Option.some.injEq, Pos.mk.injEq] at hadd
        omega
      · exact Option.noConfusion hadd
  · apply bounce_noPred_terminates
    · decide
    · intro u hu hadd
      obtain ⟨ux, uy⟩ := u
      simp only [playerLaser] at hadd
      cases uy with
      | zero => exact Option.noConfusion hadd
      | succ k =>
        simp only [addCompassQuadrant, Option.some.injEq, Pos.mk.injEq] at hadd
        have huy : Nat.succ k < 8 := hu.1
        omega

end LaserChess
